import Mathlib

set_option linter.unusedVariables false

/-!
Shallow embedding of the gcli command catalog and hook registry
(`src/app.go`).  Go maps are modelled as association lists with
replace-on-insert semantics; a fatal `exitWithErr` abort is modelled as an
`AddOutcome.fatal` result carrying the catalog state at the moment of the
abort; event dispatch is observed through a ghost trace field `fired`
recording, for each `fireEvent` call, the event name together with the
handlers invoked, in invocation order.  Handlers are opaque closures, so the
state is parametric in a handler type `H`.
-/

/-- Association-list lookup: the model of a Go map read `m[k]`. -/
def alookup {α : Type} : List (String × α) → String → Option α
  | [], _ => none
  | p :: rest, k => if p.1 = k then some p.2 else alookup rest k

/-- Association-list update: the model of a Go map write `m[k] = v`.  Any
previous binding of `k` is removed and the new one appended, so keys stay
unique. -/
def ainsert {α : Type} : List (String × α) → String → α → List (String × α)
  | [], k, v => [(k, v)]
  | p :: rest, k, v => if p.1 = k then ainsert rest k v else p :: ainsert rest k v

/-- Go `unicode.IsSpace`: the Unicode white-space characters. -/
def goIsSpace (ch : Char) : Bool :=
  ch == ' ' || ch == '\t' || ch == '\n' || ch.toNat == 0x0B || ch.toNat == 0x0C ||
  ch == '\r' || ch.toNat == 0x85 || ch.toNat == 0xA0 || ch.toNat == 0x1680 ||
  (decide (0x2000 ≤ ch.toNat) && decide (ch.toNat ≤ 0x200A)) ||
  ch.toNat == 0x2028 || ch.toNat == 0x2029 || ch.toNat == 0x202F ||
  ch.toNat == 0x205F || ch.toNat == 0x3000

/-- Go `strings.TrimSpace`: drop leading and trailing white space. -/
def trimSpace (s : String) : String :=
  String.mk (((s.data.dropWhile goIsSpace).reverse.dropWhile goIsSpace).reverse)

/-- Go `strings.Index(s, ":")`: the byte index of the first colon, with `none`
standing for Go's `-1`.  (A colon is a single ASCII byte, so the characters
before the first colon are exactly the bytes before that byte index.) -/
def colonByteIndex : List Char → Option Nat
  | [] => none
  | ch :: rest =>
    if ch = ':' then some 0 else (colonByteIndex rest).map (fun n => ch.utf8Size + n)

/-- Reserved event name `init` (src/app.go line 19). -/
def EvtInit : String := "init"

/-- Reserved event name `before` (line 20). -/
def EvtBefore : String := "before"

/-- Reserved event name `after` (line 21). -/
def EvtAfter : String := "after"

/-- Reserved event name `error` (line 22). -/
def EvtError : String := "error"

/-- Success exit code (line 27). -/
def OK : Nat := 0

/-- Error exit code (line 29). -/
def ERR : Nat := 2

/-- Modelled from the spec: the `Command` struct is not under `src/`; only the
fields the catalog reads or writes are modelled (`Name`, `Module`, `Aliases`,
`Disabled`), plus `UseFor` standing in for the opaque caller-owned fields and
`hasApp` for the owning-catalog back-reference set when an entry is
accepted. -/
structure Command where
  Name : String := ""
  Module : String := ""
  Aliases : List String := []
  Disabled : Bool := false
  UseFor : String := ""
  hasApp : Bool := false
deriving DecidableEq

/-- Modelled from the spec: `Command.IsDisabled` reports the `Disabled`
flag. -/
def Command.IsDisabled (c : Command) : Bool := c.Disabled

/-- Modelled from the spec: the entry's own initialization routine invoked at
the end of `AddCommand` is opaque to this core (an external collaborator
hook); it does not touch the catalog. -/
def initEntry (c : Command) : Command := c

/-- The ASCII logo setting (line 46). -/
structure Logo where
  Text : String := ""
  Style : String := ""
deriving DecidableEq

/-- The cli app state (`App`, src/app.go lines 52-89), parametric in the
opaque handler type `H`.  `fired` is a ghost trace observing event
dispatch; every other field mirrors a Go struct field, with the Go
zero values as defaults. -/
structure App (H : Type) where
  Name : String := ""
  Version : String := ""
  Description : String := ""
  Logo : Logo := {}
  Strict : Bool := false
  names : List (String × Nat) := []
  errors : List String := []
  aliases : List (String × String) := []
  commands : List (String × Command) := []
  moduleCommands : List (String × List (String × Command)) := []
  commandName : String := ""
  nameMaxLength : Nat := 0
  defaultCommand : String := ""
  cleanArgs : List String := []
  hooks : List (String × List H) := []
  fired : List (String × List H) := []
deriving DecidableEq

/-- Modelled from the spec: `SimpleHooks` is not under `src/`; its `Add`/`On`
append the handler to the ordered list for the event name, creating the list
if absent. -/
def App.hookAdd {H : Type} (app : App H) (e : String) (h : H) : App H :=
  { app with hooks := ainsert app.hooks e (((alookup app.hooks e).getD []) ++ [h]) }

/-- `App.On` (line 240): log at Debug, then append via the hook registry. -/
def App.On {H : Type} (app : App H) (e : String) (h : H) : App H :=
  app.hookAdd e h

/-- The handlers a `fireEvent` for this event invokes, in invocation order:
the registered list, or none when the event has no handlers. -/
def App.firedHandlers {H : Type} (app : App H) (e : String) : List H :=
  (alookup app.hooks e).getD []

/-- `App.fireEvent` (line 246): synchronously invoke every handler registered
for the event, in registration order; the ghost trace records the call
together with the handlers invoked. -/
def App.fireEvent {H : Type} (app : App H) (e : String) : App H :=
  { app with fired := app.fired ++ [(e, app.firedHandlers e)] }

/-- Modelled from the spec: `AddAliases(canonicalName, aliasList)` is not
under `src/`; it sets `aliases[alias] = canonicalName` for each alias in
order, unconditionally overwriting any prior mapping for that alias string
(last-writer-wins), with no error or log signal on a collision. -/
def App.AddAliases {H : Type} (app : App H) (canonical : String) (list : List String) :
    App H :=
  { app with aliases := list.foldl (fun m a => ainsert m a canonical) app.aliases }

/-- The command as stored and returned on the accepted path of `AddCommand`
(lines 207-236): `Module` is the part of the (already trimmed) name before
the first colon, or empty when there is no colon; the catalog back-reference
is set and the entry's opaque initialization runs.  Go stores a pointer into
the maps, so the stored entry reflects these later in-place mutations. -/
def acceptCmd (c : Command) : Command :=
  let m := match colonByteIndex c.Name.data with
    | some _ => String.mk (c.Name.data.takeWhile (fun ch => ch != ':'))
    | none => ""
  initEntry { c with Module := m, hasApp := true }

/-- The catalog state after the accepted path of `AddCommand` (lines
213-230): insert into `names` (name to byte length) and `commands`, raise
`nameMaxLength` when exceeded, ensure and fill the module bucket, then
register the entry's aliases. -/
def acceptState {H : Type} (app : App H) (c0 : Command) : App H :=
  let c := acceptCmd c0
  let nameLen := c.Name.utf8ByteSize
  let app1 := { app with
    names := ainsert app.names c.Name nameLen
    commands := ainsert app.commands c.Name c }
  let app2 := if app1.nameMaxLength < nameLen then
      { app1 with nameMaxLength := nameLen } else app1
  let bucket := (alookup app2.moduleCommands c.Module).getD []
  let app3 := { app2 with
    moduleCommands := ainsert app2.moduleCommands c.Module (ainsert bucket c.Name c) }
  app3.AddAliases c.Name c.Aliases

/-- Outcome of `AddCommand`: `fatal` models `exitWithErr` (process
termination with a descriptive message) and carries the catalog state at the
moment of the abort. -/
inductive AddOutcome (H : Type) where
  | fatal (msg : String) (app : App H)
  | ok (app : App H) (cmd : Command)
deriving DecidableEq

/-- The catalog state an outcome leaves behind. -/
def AddOutcome.app {H : Type} : AddOutcome H → App H
  | .fatal _ a => a
  | .ok a _ => a

/-- `App.AddCommand` (src/app.go lines 191-237): trim the name; empty name is
fatal; a disabled entry is skipped and returned; a leading colon is fatal;
otherwise store the entry. -/
def App.AddCommand {H : Type} (app : App H) (c0 : Command) : AddOutcome H :=
  let c := { c0 with Name := trimSpace c0.Name }
  if c.Name = "" then
    AddOutcome.fatal "The added command name can not be empty." app
  else if c.IsDisabled then
    AddOutcome.ok app c
  else if colonByteIndex c.Name.data = some 0 then
    AddOutcome.fatal "The added command module can not be empty." app
  else
    AddOutcome.ok (acceptState app c) (acceptCmd c)

/-- `App.Initialize` (line 129), written `initApp` here: reset `names`,
install the default `error` handler (`defaultErrHandler` is defined outside
`src/` and opaque, passed as `deh`), and fire `init`.  `AddVars` feeds the
external help renderer and touches no catalog state. -/
def App.initApp {H : Type} (app : App H) (deh : H) : App H :=
  let app1 := { app with names := [] }
  let app2 := app1.hookAdd EvtError deh
  app2.fireEvent EvtInit

/-- `NewApp` (line 99): construct the app with the defaults, apply the
optional configuration function, then run initialization. -/
def NewApp {H : Type} (fn : Option (App H → App H)) (deh : H) : App H :=
  let app : App H :=
    { Name := "My CLI App", Logo := { Style := "info" },
      Version := "1.0.0",
      commands := [], moduleCommands := [], nameMaxLength := 12 }
  let app := match fn with
    | some f => f app
    | none => app
  app.initApp deh

/-- `App.Names` (line 258): the live name-to-length map. -/
def App.Names {H : Type} (app : App H) : List (String × Nat) := app.names

/-- `App.Commands` (line 263): the live command map. -/
def App.Commands {H : Type} (app : App H) : List (String × Command) := app.commands

/-- `App.AddError` (line 253): append a runtime error. -/
def App.AddError {H : Type} (app : App H) (err : String) : App H :=
  { app with errors := app.errors ++ [err] }

/-- Run `AddCommand` over a list of entries in order, stopping at a fatal
abort (the process would have terminated there). -/
def addAll {H : Type} (app : App H) : List Command → Option (App H)
  | [] => some app
  | c :: rest =>
    match app.AddCommand c with
    | AddOutcome.fatal _ _ => none
    | AddOutcome.ok app' _ => addAll app' rest

/-! ### Lemmas about the map model -/

theorem alookup_ainsert_self {α : Type} (l : List (String × α)) (k : String) (v : α) :
    alookup (ainsert l k v) k = some v := by
  induction l with
  | nil => simp [ainsert, alookup]
  | cons p rest ih =>
    by_cases h : p.1 = k
    · simpa [ainsert, h] using ih
    · simp [ainsert, alookup, h, ih]

theorem alookup_ainsert_ne {α : Type} (l : List (String × α)) (k k' : String) (v : α)
    (h : k' ≠ k) : alookup (ainsert l k v) k' = alookup l k' := by
  induction l with
  | nil =>
    have hk : ¬(k = k') := fun hh => h hh.symm
    simp [ainsert, alookup, hk]
  | cons p rest ih =>
    by_cases hp : p.1 = k
    · rw [ainsert, if_pos hp, ih, alookup, if_neg (hp ▸ fun hh => h hh.symm)]
    · rw [ainsert, if_neg hp]
      by_cases hp' : p.1 = k'
      · rw [alookup, if_pos hp', alookup, if_pos hp']
      · rw [alookup, if_neg hp', alookup, if_neg hp', ih]

theorem countP_ainsert_self {α : Type} (l : List (String × α)) (k : String) (v : α) :
    (ainsert l k v).countP (fun p => p.1 == k) = 1 := by
  induction l with
  | nil => simp [ainsert]
  | cons p rest ih =>
    by_cases h : p.1 = k
    · simpa [ainsert, h] using ih
    · simp [ainsert, h, List.countP_cons, ih]

/-! ### Lemmas about the string helpers -/

theorem colonByteIndex_eq_zero_iff (l : List Char) :
    colonByteIndex l = some 0 ↔ l.head? = some ':' := by
  cases l with
  | nil => simp [colonByteIndex]
  | cons ch rest =>
    by_cases h : ch = ':'
    · simp [colonByteIndex, h]
    · simp only [colonByteIndex, if_neg h, List.head?_cons]
      constructor
      · intro hm
        cases hcb : colonByteIndex rest with
        | none => rw [hcb] at hm; cases hm
        | some n =>
          rw [hcb] at hm
          simp only [Option.map_some', Option.some.injEq] at hm
          have := Char.utf8Size_pos ch
          omega
      · intro hh
        exact absurd (Option.some.inj hh) h

theorem colonByteIndex_isSome_iff (l : List Char) :
    (colonByteIndex l).isSome = true ↔ ':' ∈ l := by
  induction l with
  | nil => simp [colonByteIndex]
  | cons ch rest ih =>
    by_cases h : ch = ':'
    · simp [colonByteIndex, h]
    · cases hcb : colonByteIndex rest with
      | none =>
        rw [hcb] at ih
        simp only [colonByteIndex, if_neg h, hcb, Option.map_none', List.mem_cons]
        simp only [Option.isSome_none] at ih ⊢
        constructor
        · intro hf; cases hf
        · rintro (hh | hm)
          · exact absurd hh.symm h
          · exact absurd hm (fun hm' => by simp [hm'] at ih)
      | some n =>
        rw [hcb] at ih
        simp only [colonByteIndex, if_neg h, hcb, Option.map_some', List.mem_cons]
        simp only [Option.isSome_some, true_iff] at ih
        simp [ih]

/-! ### Lemmas about alias registration -/

theorem alookup_aliasFold_notMem (list : List String) (al : List (String × String))
    (canonical a : String) (h : a ∉ list) :
    alookup (list.foldl (fun m x => ainsert m x canonical) al) a = alookup al a := by
  induction list generalizing al with
  | nil => rfl
  | cons b rest ih =>
    simp only [List.foldl_cons]
    rw [ih _ (fun hr => h (List.mem_cons_of_mem _ hr))]
    exact alookup_ainsert_ne _ _ _ _ (fun hab => h (hab ▸ List.mem_cons_self _ _))

theorem alookup_aliasFold_mem (list : List String) (al : List (String × String))
    (canonical a : String) (h : a ∈ list) :
    alookup (list.foldl (fun m x => ainsert m x canonical) al) a = some canonical := by
  induction list generalizing al with
  | nil => cases h
  | cons b rest ih =>
    simp only [List.foldl_cons]
    by_cases hr : a ∈ rest
    · exact ih _ hr
    · have hab : a = b := by
        rcases List.mem_cons.mp h with h1 | h2
        · exact h1
        · exact absurd h2 hr
      subst hab
      rw [alookup_aliasFold_notMem rest _ _ _ hr, alookup_ainsert_self]

/-! ### Characterization of `AddCommand`'s four paths -/

theorem addCommand_empty {H : Type} (app : App H) (c : Command)
    (h1 : trimSpace c.Name = "") :
    app.AddCommand c = AddOutcome.fatal "The added command name can not be empty." app := by
  simp [App.AddCommand, h1]

theorem addCommand_disabled_eq {H : Type} (app : App H) (c : Command)
    (hd : c.Disabled = true) (h1 : trimSpace c.Name ≠ "") :
    app.AddCommand c = AddOutcome.ok app { c with Name := trimSpace c.Name } := by
  simp [App.AddCommand, Command.IsDisabled, h1, hd]

theorem addCommand_colon_fatal {H : Type} (app : App H) (c : Command)
    (h1 : trimSpace c.Name ≠ "") (hd : c.Disabled = false)
    (h3 : colonByteIndex (trimSpace c.Name).data = some 0) :
    app.AddCommand c =
      AddOutcome.fatal "The added command module can not be empty." app := by
  simp [App.AddCommand, Command.IsDisabled, h1, hd, h3]

theorem addCommand_accept {H : Type} (app : App H) (c : Command)
    (h1 : trimSpace c.Name ≠ "") (hd : c.Disabled = false)
    (h3 : colonByteIndex (trimSpace c.Name).data ≠ some 0) :
    app.AddCommand c =
      AddOutcome.ok (acceptState app { c with Name := trimSpace c.Name })
        (acceptCmd { c with Name := trimSpace c.Name }) := by
  simp [App.AddCommand, Command.IsDisabled, h1, hd, h3]

theorem addCommand_ok_inv {H : Type} (app app' : App H) (c c' : Command)
    (hd : c.Disabled = false) (h : app.AddCommand c = AddOutcome.ok app' c') :
    trimSpace c.Name ≠ "" ∧ colonByteIndex (trimSpace c.Name).data ≠ some 0 ∧
    app' = acceptState app { c with Name := trimSpace c.Name } ∧
    c' = acceptCmd { c with Name := trimSpace c.Name } := by
  by_cases h1 : trimSpace c.Name = ""
  · rw [addCommand_empty app c h1] at h
    simp at h
  · by_cases h3 : colonByteIndex (trimSpace c.Name).data = some 0
    · rw [addCommand_colon_fatal app c h1 hd h3] at h
      simp at h
    · rw [addCommand_accept app c h1 hd h3] at h
      injection h with ha hc
      exact ⟨h1, h3, ha.symm, hc.symm⟩

/-! ### The shape of the accepted command and the accepted state -/

theorem acceptCmd_Name (c : Command) : (acceptCmd c).Name = c.Name := rfl

theorem acceptCmd_Disabled (c : Command) : (acceptCmd c).Disabled = c.Disabled := rfl

theorem acceptCmd_Aliases (c : Command) : (acceptCmd c).Aliases = c.Aliases := rfl

theorem acceptCmd_Module (c : Command) :
    (acceptCmd c).Module =
      if ':' ∈ c.Name.data then
        String.mk (c.Name.data.takeWhile (fun ch => ch != ':'))
      else "" := by
  by_cases h : ':' ∈ c.Name.data
  · have hs : (colonByteIndex c.Name.data).isSome = true :=
      (colonByteIndex_isSome_iff _).mpr h
    cases hcb : colonByteIndex c.Name.data with
    | none => rw [hcb] at hs; cases hs
    | some n => simp [acceptCmd, initEntry, hcb, h]
  · have hs : ¬(colonByteIndex c.Name.data).isSome = true :=
      fun hh => h ((colonByteIndex_isSome_iff _).mp hh)
    cases hcb : colonByteIndex c.Name.data with
    | none => simp [acceptCmd, initEntry, hcb, h]
    | some n => rw [hcb] at hs; simp at hs

theorem acceptState_commands {H : Type} (app : App H) (c : Command) :
    (acceptState app c).commands = ainsert app.commands (acceptCmd c).Name (acceptCmd c) := by
  simp only [acceptState, App.AddAliases]
  split <;> rfl

theorem acceptState_names {H : Type} (app : App H) (c : Command) :
    (acceptState app c).names =
      ainsert app.names (acceptCmd c).Name (acceptCmd c).Name.utf8ByteSize := by
  simp only [acceptState, App.AddAliases]
  split <;> rfl

theorem acceptState_nameMaxLength {H : Type} (app : App H) (c : Command) :
    (acceptState app c).nameMaxLength =
      if app.nameMaxLength < (acceptCmd c).Name.utf8ByteSize then
        (acceptCmd c).Name.utf8ByteSize
      else app.nameMaxLength := by
  simp only [acceptState, App.AddAliases]
  split <;> rfl

theorem acceptState_moduleCommands {H : Type} (app : App H) (c : Command) :
    (acceptState app c).moduleCommands =
      ainsert app.moduleCommands (acceptCmd c).Module
        (ainsert ((alookup app.moduleCommands (acceptCmd c).Module).getD [])
          (acceptCmd c).Name (acceptCmd c)) := by
  simp only [acceptState, App.AddAliases]
  split <;> rfl

/-! ### Invariant lemmas for the name-length bookkeeping -/

theorem acceptState_names_bound {H : Type} (app : App H) (c : Command)
    (hfloor : 12 ≤ app.nameMaxLength)
    (hnames : ∀ n l, alookup app.names n = some l → l ≤ app.nameMaxLength) :
    12 ≤ (acceptState app c).nameMaxLength ∧
    ∀ n l, alookup (acceptState app c).names n = some l →
      l ≤ (acceptState app c).nameMaxLength := by
  constructor
  · rw [acceptState_nameMaxLength]
    split <;> omega
  · intro n l hl
    rw [acceptState_names] at hl
    rw [acceptState_nameMaxLength]
    by_cases hn : n = (acceptCmd c).Name
    · subst hn
      rw [alookup_ainsert_self] at hl
      have : l = (acceptCmd c).Name.utf8ByteSize := Option.some.inj hl.symm
      subst this
      split <;> omega
    · rw [alookup_ainsert_ne _ _ _ _ hn] at hl
      have := hnames n l hl
      split <;> omega

theorem addAll_names_bound {H : Type} (cs : List Command) (app app' : App H)
    (h : addAll app cs = some app')
    (hfloor : 12 ≤ app.nameMaxLength)
    (hnames : ∀ n l, alookup app.names n = some l → l ≤ app.nameMaxLength) :
    12 ≤ app'.nameMaxLength ∧
    ∀ n l, alookup app'.names n = some l → l ≤ app'.nameMaxLength := by
  induction cs generalizing app with
  | nil =>
    simp only [addAll, Option.some.injEq] at h
    subst h
    exact ⟨hfloor, hnames⟩
  | cons c rest ih =>
    simp only [addAll] at h
    cases hac : app.AddCommand c with
    | fatal m a => rw [hac] at h; simp at h
    | ok a cmd =>
      rw [hac] at h
      by_cases hd : c.Disabled = true
      · by_cases h1 : trimSpace c.Name = ""
        · rw [addCommand_empty app c h1] at hac; simp at hac
        · rw [addCommand_disabled_eq app c hd h1] at hac
          injection hac with ha hc
          subst ha
          exact ih _ h hfloor hnames
      · have hd' : c.Disabled = false := by
          cases hcd : c.Disabled
          · rfl
          · exact absurd hcd hd
        obtain ⟨_, _, ha, _⟩ := addCommand_ok_inv app a c cmd hd' hac
        subst ha
        obtain ⟨hf', hn'⟩ := acceptState_names_bound app _ hfloor hnames
        exact ih _ h hf' hn'

/-! ### Claim theorems -/

/-- C1: for every command entry whose name is non-empty after trimming, has
no leading colon, and is not disabled, `AddCommand` succeeds and afterwards
the catalog's `Commands()` map contains that name mapped to the stored entry,
`Names()[name]` equals the (byte) length of the name, and `nameMaxLength` is
at least that length. -/
theorem C1_addCommand_registers {H : Type} (app : App H) (c : Command)
    (hname : trimSpace c.Name ≠ "")
    (hcolon : (trimSpace c.Name).data.head? ≠ some ':')
    (hdis : c.Disabled = false) :
    ∃ (app' : App H) (c' : Command), app.AddCommand c = AddOutcome.ok app' c' ∧
      alookup app'.Commands (trimSpace c.Name) = some c' ∧
      alookup app'.Names (trimSpace c.Name) = some (trimSpace c.Name).utf8ByteSize ∧
      (trimSpace c.Name).utf8ByteSize ≤ app'.nameMaxLength := by
  have h3 : colonByteIndex (trimSpace c.Name).data ≠ some 0 :=
    fun hz => hcolon ((colonByteIndex_eq_zero_iff _).mp hz)
  refine ⟨_, _, addCommand_accept app c hname hdis h3, ?_, ?_, ?_⟩
  · rw [App.Commands, acceptState_commands]
    have hn : (acceptCmd { c with Name := trimSpace c.Name }).Name = trimSpace c.Name := rfl
    rw [hn]
    exact alookup_ainsert_self _ _ _
  · rw [App.Names, acceptState_names]
    have hn : (acceptCmd { c with Name := trimSpace c.Name }).Name = trimSpace c.Name := rfl
    rw [hn]
    exact alookup_ainsert_self _ _ _
  · rw [acceptState_nameMaxLength]
    have hn : (acceptCmd { c with Name := trimSpace c.Name }).Name = trimSpace c.Name := rfl
    rw [hn]
    split <;> omega

/-- Witness for C1 at name `"example"` on a fresh app. -/
theorem C1_witness :
    trimSpace ("example" : String) ≠ "" ∧
    (trimSpace ("example" : String)).data.head? ≠ some ':' ∧
    (∃ (app' : App Nat) (c' : Command),
      App.AddCommand (NewApp none 0) { Name := "example" } = AddOutcome.ok app' c' ∧
      alookup app'.Commands (trimSpace "example") = some c' ∧
      alookup app'.Names (trimSpace "example") = some (trimSpace "example").utf8ByteSize ∧
      (trimSpace "example").utf8ByteSize ≤ app'.nameMaxLength) :=
  ⟨by decide, by decide,
   C1_addCommand_registers (NewApp none 0) { Name := "example" } (by decide) (by decide) rfl⟩

/-- C2 counterexample: a *disabled* entry whose trimmed name has its colon at
position 0 does not abort fatally — `AddCommand` skips it and returns it,
because the disabled check comes before the module validation. -/
theorem C2_cex :
    (trimSpace ":foo").data.head? = some ':' ∧
    App.AddCommand (H := Nat) (NewApp none 0) { Name := ":foo", Disabled := true } =
      AddOutcome.ok (NewApp none 0) { Name := ":foo", Disabled := true } :=
  ⟨by decide, by decide⟩

/-- C2 (amended): an entry whose name trims to empty always aborts fatally
with a descriptive error; an entry whose trimmed name has a colon at position
0 aborts fatally when it is *not disabled*; in both abort cases the catalog
state carried at the abort is the unchanged input state, so commands, names,
moduleCommands and aliases are unchanged and the entry is never stored. -/
theorem C2_fatal_configuration {H : Type} (app : App H) (c : Command) :
    (trimSpace c.Name = "" →
      app.AddCommand c =
        AddOutcome.fatal "The added command name can not be empty." app) ∧
    (trimSpace c.Name ≠ "" → c.Disabled = false →
      (trimSpace c.Name).data.head? = some ':' →
      app.AddCommand c =
        AddOutcome.fatal "The added command module can not be empty." app) := by
  refine ⟨fun h1 => addCommand_empty app c h1, fun h1 hd hc => ?_⟩
  exact addCommand_colon_fatal app c h1 hd ((colonByteIndex_eq_zero_iff _).mpr hc)

/-- Witness for C2 (amended): both fatal cases at concrete inputs. -/
theorem C2_witness :
    App.AddCommand (H := Nat) (NewApp none 0) { Name := " " } =
      AddOutcome.fatal "The added command name can not be empty." (NewApp none 0) ∧
    App.AddCommand (H := Nat) (NewApp none 0) { Name := ":x" } =
      AddOutcome.fatal "The added command module can not be empty." (NewApp none 0) :=
  ⟨(C2_fatal_configuration _ _).1 (by decide),
   (C2_fatal_configuration _ _).2 (by decide) rfl (by decide)⟩

/-- C3 counterexample: `AddCommand` trims the name *before* the disabled
check, so a disabled entry with surrounding whitespace comes back with its
`Name` field changed to the trimmed value, not its value before the call. -/
theorem C3_cex :
    App.AddCommand (H := Nat) (NewApp none 0) { Name := " foo ", Disabled := true } =
      AddOutcome.ok (NewApp none 0) { Name := "foo", Disabled := true } ∧
    ("foo" : String) ≠ " foo " :=
  ⟨by decide, by decide⟩

/-- C3 (amended): a disabled entry with non-empty trimmed name is returned
with only `Name` changed to its trimmed value and is never stored: the
catalog comes back unchanged, so the name is absent from `Commands()` and
`Names()` afterwards whenever it was absent before the call. -/
theorem C3_disabled_skip {H : Type} (app : App H) (c : Command)
    (hd : c.Disabled = true) (hn : trimSpace c.Name ≠ "") :
    app.AddCommand c = AddOutcome.ok app { c with Name := trimSpace c.Name } ∧
    (alookup app.Commands (trimSpace c.Name) = none →
      alookup ((app.AddCommand c).app).Commands (trimSpace c.Name) = none) ∧
    (alookup app.Names (trimSpace c.Name) = none →
      alookup ((app.AddCommand c).app).Names (trimSpace c.Name) = none) := by
  have h := addCommand_disabled_eq app c hd hn
  refine ⟨h, fun ha => ?_, fun ha => ?_⟩ <;> rw [h] <;> exact ha

/-- Witness for C3 (amended) at name `" bar "`. -/
theorem C3_witness :
    App.AddCommand (H := Nat) (NewApp none 0) { Name := " bar ", Disabled := true } =
      AddOutcome.ok (NewApp none 0)
        { ({ Name := " bar ", Disabled := true } : Command) with
          Name := trimSpace " bar " } :=
  (C3_disabled_skip (NewApp none 0) { Name := " bar ", Disabled := true } rfl (by decide)).1

/-- C10: the disabled check precedes the leading-colon module validation, so
a disabled entry whose trimmed name begins with a colon is skipped and
returned without a fatal abort, while the same name on an enabled entry is a
fatal configuration error. -/
theorem C10_disabled_colon_skipped {H : Type} (app : App H) (c : Command)
    (hd : c.Disabled = true) (hn : trimSpace c.Name ≠ "")
    (hc : (trimSpace c.Name).data.head? = some ':') :
    app.AddCommand c = AddOutcome.ok app { c with Name := trimSpace c.Name } ∧
    app.AddCommand { c with Disabled := false } =
      AddOutcome.fatal "The added command module can not be empty." app := by
  refine ⟨addCommand_disabled_eq app c hd hn, ?_⟩
  exact addCommand_colon_fatal app { c with Disabled := false } hn rfl
    ((colonByteIndex_eq_zero_iff _).mpr hc)

/-- Witness for C10 at name `":svc"`. -/
theorem C10_witness :
    App.AddCommand (H := Nat) (NewApp none 0) { Name := ":svc", Disabled := true } =
      AddOutcome.ok (NewApp none 0)
        { ({ Name := ":svc", Disabled := true } : Command) with Name := trimSpace ":svc" } ∧
    App.AddCommand (H := Nat) (NewApp none 0)
        { ({ Name := ":svc", Disabled := true } : Command) with Disabled := false } =
      AddOutcome.fatal "The added command module can not be empty." (NewApp none 0) :=
  C10_disabled_colon_skipped (NewApp none 0) { Name := ":svc", Disabled := true }
    rfl (by decide) (by decide)

/-- C4: for every accepted entry, `Module` is set to the substring of the
(trimmed) name before the first colon when the name contains a colon, and to
the empty string when it does not, and the entry is inserted into the
`moduleCommands` bucket keyed by that `Module` (the empty-string bucket for
un-namespaced commands). -/
theorem C4_module_assignment {H : Type} (app app' : App H) (c c' : Command)
    (hd : c.Disabled = false)
    (h : app.AddCommand c = AddOutcome.ok app' c') :
    c'.Module =
      (if ':' ∈ (trimSpace c.Name).data then
        String.mk ((trimSpace c.Name).data.takeWhile (fun ch => ch != ':'))
      else "") ∧
    alookup ((alookup app'.moduleCommands c'.Module).getD []) c'.Name = some c' := by
  obtain ⟨h1, h3, ha, hc⟩ := addCommand_ok_inv app app' c c' hd h
  subst ha; subst hc
  constructor
  · rw [acceptCmd_Module]
  · rw [acceptState_moduleCommands, alookup_ainsert_self]
    simp only [Option.getD_some]
    exact alookup_ainsert_self _ _ _

/-- Witness for C4 at name `"mod:cmd"` on a fresh app. -/
theorem C4_witness :
    (acceptCmd { Name := trimSpace "mod:cmd" }).Module =
      (if ':' ∈ (trimSpace ("mod:cmd" : String)).data then
        String.mk ((trimSpace ("mod:cmd" : String)).data.takeWhile (fun ch => ch != ':'))
      else "") ∧
    alookup
      ((alookup (acceptState (NewApp (H := Nat) none 0)
            { Name := trimSpace "mod:cmd" }).moduleCommands
          (acceptCmd { Name := trimSpace "mod:cmd" }).Module).getD [])
      (acceptCmd { Name := trimSpace "mod:cmd" }).Name =
      some (acceptCmd { Name := trimSpace "mod:cmd" }) :=
  C4_module_assignment (NewApp none 0) _ { Name := "mod:cmd" } _ rfl (by decide)

/-- C5: `nameMaxLength` starts at the default floor 12 in `NewApp`, never
decreases across any catalog operation (`AddCommand` on every path, `On`,
`fireEvent`, `AddAliases`), and after any sequence of successful `AddCommand`
calls from a fresh app it is at least 12 and at least the (byte) length of
every name registered in the sequence. -/
theorem C5_nameMaxLength_monotone_floor {H : Type} :
    (∀ deh : H, (NewApp none deh).nameMaxLength = 12) ∧
    (∀ (app : App H) (c : Command),
      app.nameMaxLength ≤ ((app.AddCommand c).app).nameMaxLength) ∧
    (∀ (app : App H) (e : String) (h : H),
      (app.On e h).nameMaxLength = app.nameMaxLength) ∧
    (∀ (app : App H) (e : String),
      (app.fireEvent e).nameMaxLength = app.nameMaxLength) ∧
    (∀ (app : App H) (canonical : String) (list : List String),
      (app.AddAliases canonical list).nameMaxLength = app.nameMaxLength) ∧
    (∀ (deh : H) (cs : List Command) (app' : App H),
      addAll (NewApp none deh) cs = some app' →
      12 ≤ app'.nameMaxLength ∧
      ∀ n l, alookup app'.Names n = some l → l ≤ app'.nameMaxLength) := by
  refine ⟨fun deh => rfl, ?_, fun app e h => rfl, fun app e => rfl,
    fun app canonical list => rfl, ?_⟩
  · intro app c
    by_cases h1 : trimSpace c.Name = ""
    · rw [addCommand_empty app c h1]
      exact le_refl _
    · by_cases hd : c.Disabled = true
      · rw [addCommand_disabled_eq app c hd h1]
        exact le_refl _
      · have hd' : c.Disabled = false := by
          cases hcd : c.Disabled
          · rfl
          · exact absurd hcd hd
        by_cases h3 : colonByteIndex (trimSpace c.Name).data = some 0
        · rw [addCommand_colon_fatal app c h1 hd' h3]
          exact le_refl _
        · rw [addCommand_accept app c h1 hd' h3]
          show app.nameMaxLength ≤ (acceptState app _).nameMaxLength
          rw [acceptState_nameMaxLength]
          split <;> omega
  · intro deh cs app' h
    have hnames : ∀ n l, alookup (NewApp (H := H) none deh).names n = some l →
        l ≤ (NewApp (H := H) none deh).nameMaxLength := by
      intro n l hl
      have he : (NewApp (H := H) none deh).names = [] := rfl
      rw [he] at hl
      simp [alookup] at hl
    exact addAll_names_bound cs _ app' h (Nat.le_of_eq rfl) hnames

/-- Witness for C5: the floor on a fresh app and the bound after a concrete
successful registration sequence. -/
theorem C5_witness :
    (NewApp (H := Nat) none 0).nameMaxLength = 12 ∧
    12 ≤ (acceptState (NewApp (H := Nat) none 0)
      { Name := trimSpace "verylongcommandname" }).nameMaxLength ∧
    19 ≤ (acceptState (NewApp (H := Nat) none 0)
      { Name := trimSpace "verylongcommandname" }).nameMaxLength := by
  refine ⟨C5_nameMaxLength_monotone_floor.1 0, ?_, ?_⟩
  · exact (C5_nameMaxLength_monotone_floor.2.2.2.2.2 0
      [{ Name := "verylongcommandname" }] _ (by decide)).1
  · exact (C5_nameMaxLength_monotone_floor.2.2.2.2.2 0
      [{ Name := "verylongcommandname" }] _ (by decide)).2
      "verylongcommandname" 19 (by decide)

/-- C6: registering two accepted entries with the same (trimmed) name leaves
exactly one binding under that name in `Commands()` and one key in `Names()`,
and the stored entry is the one from the second registration — the first is
silently replaced. -/
theorem C6_reregister_replaces {H : Type} (app app1 app2 : App H)
    (c1 c2 c1' c2' : Command)
    (hd1 : c1.Disabled = false) (hd2 : c2.Disabled = false)
    (h1 : app.AddCommand c1 = AddOutcome.ok app1 c1')
    (h2 : app1.AddCommand c2 = AddOutcome.ok app2 c2')
    (hsame : trimSpace c1.Name = trimSpace c2.Name) :
    alookup app2.Commands (trimSpace c2.Name) = some c2' ∧
    app2.Commands.countP (fun p => p.1 == trimSpace c2.Name) = 1 ∧
    app2.Names.countP (fun p => p.1 == trimSpace c2.Name) = 1 := by
  obtain ⟨_, _, ha2, hc2⟩ := addCommand_ok_inv app1 app2 c2 c2' hd2 h2
  subst ha2; subst hc2
  have hn : (acceptCmd { c2 with Name := trimSpace c2.Name }).Name = trimSpace c2.Name := rfl
  refine ⟨?_, ?_, ?_⟩
  · rw [App.Commands, acceptState_commands, hn]
    exact alookup_ainsert_self _ _ _
  · rw [App.Commands, acceptState_commands, hn]
    exact countP_ainsert_self _ _ _
  · rw [App.Names, acceptState_names, hn]
    exact countP_ainsert_self _ _ _

/-- Witness for C6: registering `"dup"` twice with different `UseFor` fields,
the second registration wins. -/
theorem C6_witness :
    alookup (acceptState (acceptState (NewApp (H := Nat) none 0)
        { Name := trimSpace "dup", UseFor := "first" })
        { Name := trimSpace "dup", UseFor := "second" }).Commands (trimSpace "dup") =
      some (acceptCmd { Name := trimSpace "dup", UseFor := "second" }) ∧
    (acceptState (acceptState (NewApp (H := Nat) none 0)
        { Name := trimSpace "dup", UseFor := "first" })
        { Name := trimSpace "dup", UseFor := "second" }).Commands.countP
      (fun p => p.1 == trimSpace "dup") = 1 ∧
    (acceptState (acceptState (NewApp (H := Nat) none 0)
        { Name := trimSpace "dup", UseFor := "first" })
        { Name := trimSpace "dup", UseFor := "second" }).Names.countP
      (fun p => p.1 == trimSpace "dup") = 1 :=
  C6_reregister_replaces (NewApp none 0)
    (acceptState (NewApp none 0) { Name := trimSpace "dup", UseFor := "first" })
    (acceptState (acceptState (NewApp none 0) { Name := trimSpace "dup", UseFor := "first" })
      { Name := trimSpace "dup", UseFor := "second" })
    { Name := "dup", UseFor := "first" } { Name := "dup", UseFor := "second" }
    (acceptCmd { Name := trimSpace "dup", UseFor := "first" })
    (acceptCmd { Name := trimSpace "dup", UseFor := "second" })
    rfl rfl (by decide) (by decide) (by decide)

/-- C7: `AddAliases(canonicalName, aliasList)` maps each alias in the list to
the canonical name, unconditionally overwriting prior mappings
(last-writer-wins), and the spec's example behaves as stated: after
`AddAliases("foo", ["f","fo"])` then `AddAliases("bar", ["f"])`, alias `"f"`
resolves to `"bar"` and `"fo"` still resolves to `"foo"`.  The operation
returns only the updated catalog — there is no error channel or log signal
for a collision. -/
theorem C7_addAliases_last_writer {H : Type} :
    (∀ (app : App H) (canonical : String) (list : List String) (a : String),
      a ∈ list →
      alookup (app.AddAliases canonical list).aliases a = some canonical) ∧
    (∀ app : App H,
      alookup ((app.AddAliases "foo" ["f", "fo"]).AddAliases "bar" ["f"]).aliases "f" =
        some "bar" ∧
      alookup ((app.AddAliases "foo" ["f", "fo"]).AddAliases "bar" ["f"]).aliases "fo" =
        some "foo") := by
  constructor
  · intro app canonical list a ha
    exact alookup_aliasFold_mem list app.aliases canonical a ha
  · intro app
    constructor
    · exact alookup_aliasFold_mem _ _ _ _ (by decide)
    · have hshape :
          ((app.AddAliases "foo" ["f", "fo"]).AddAliases "bar" ["f"]).aliases =
            (["f"] : List String).foldl (fun m x => ainsert m x "bar")
              (app.AddAliases "foo" ["f", "fo"]).aliases := rfl
      rw [hshape, alookup_aliasFold_notMem _ _ _ _ (by decide)]
      exact alookup_aliasFold_mem _ _ _ _ (by decide)

/-- Witness for C7 on a fresh app. -/
theorem C7_witness :
    alookup ((NewApp (H := Nat) none 0).AddAliases "serve" ["s"]).aliases "s" =
      some "serve" ∧
    alookup (((NewApp (H := Nat) none 0).AddAliases "foo" ["f", "fo"]).AddAliases "bar"
        ["f"]).aliases "f" = some "bar" ∧
    alookup (((NewApp (H := Nat) none 0).AddAliases "foo" ["f", "fo"]).AddAliases "bar"
        ["f"]).aliases "fo" = some "foo" :=
  ⟨C7_addAliases_last_writer.1 (NewApp none 0) "serve" ["s"] "s" (by decide),
   (C7_addAliases_last_writer.2 (NewApp none 0)).1,
   (C7_addAliases_last_writer.2 (NewApp none 0)).2⟩

/-- C8: firing an event invokes every handler registered for that event name
exactly once each, in registration order — after `On("init", H1)` then
`On("init", H2)` on an app with no `"init"` handlers, firing `"init"`
invokes H1 then H2 — and firing an event with no registered handlers invokes
nothing and only records the (empty) dispatch in the trace. -/
theorem C8_fire_in_order {H : Type} :
    (∀ (app : App H) (h1 h2 : H), alookup app.hooks "init" = none →
      ((app.On "init" h1).On "init" h2).firedHandlers "init" = [h1, h2] ∧
      (((app.On "init" h1).On "init" h2).fireEvent "init").fired =
        ((app.On "init" h1).On "init" h2).fired ++ [("init", [h1, h2])]) ∧
    (∀ (app : App H) (e : String), alookup app.hooks e = none →
      app.fireEvent e = { app with fired := app.fired ++ [(e, [])] }) := by
  constructor
  · intro app h1 h2 h0
    have hh1 : (app.On "init" h1).hooks = ainsert app.hooks "init" [h1] := by
      simp [App.On, App.hookAdd, h0]
    have hh2 : ((app.On "init" h1).On "init" h2).hooks =
        ainsert (ainsert app.hooks "init" [h1]) "init" [h1, h2] := by
      show ainsert (app.On "init" h1).hooks "init"
          (((alookup (app.On "init" h1).hooks "init").getD []) ++ [h2]) = _
      rw [hh1, alookup_ainsert_self]
      rfl
    have hf : ((app.On "init" h1).On "init" h2).firedHandlers "init" = [h1, h2] := by
      rw [App.firedHandlers, hh2, alookup_ainsert_self]
      rfl
    exact ⟨hf, by rw [App.fireEvent, hf]⟩
  · intro app e h0
    rw [App.fireEvent, App.firedHandlers, h0]
    rfl

/-- Witness for C8 on a fresh app (whose only hook is the default `error`
handler, so `"init"` and `"before"` have none). -/
theorem C8_witness :
    (((NewApp (H := Nat) none 0).On "init" 7).On "init" 8).firedHandlers "init" =
      [7, 8] ∧
    App.fireEvent (NewApp (H := Nat) none 0) "before" =
      { NewApp (H := Nat) none 0 with
        fired := (NewApp (H := Nat) none 0).fired ++ [("before", [])] } :=
  ⟨(C8_fire_in_order.1 (NewApp none 0) 7 8 (by decide)).1,
   C8_fire_in_order.2 (NewApp none 0) "before" (by decide)⟩

/-- C9: initialization always appends exactly one default handler for the
reserved `error` event, and fires the `init` event exactly once,
synchronously, at the end — from an intermediate state in which the default
error handler is already installed, so even with no custom registration the
`error` event has a handler. -/
theorem C9_default_error_handler_then_init {H : Type} (app : App H) (deh : H) :
    alookup (app.initApp deh).hooks EvtError =
      some (((alookup app.hooks EvtError).getD []) ++ [deh]) ∧
    (∃ mid : App H, app.initApp deh = mid.fireEvent EvtInit ∧
      alookup mid.hooks EvtError =
        some (((alookup app.hooks EvtError).getD []) ++ [deh])) ∧
    (∃ hs : List H, (app.initApp deh).fired = app.fired ++ [(EvtInit, hs)]) := by
  refine ⟨?_, ⟨({ app with names := [] } : App H).hookAdd EvtError deh, rfl, ?_⟩, ?_⟩
  · exact alookup_ainsert_self _ _ _
  · exact alookup_ainsert_self _ _ _
  · exact ⟨(({ app with names := [] } : App H).hookAdd EvtError deh).firedHandlers
      EvtInit, rfl⟩
